import Mathlib

/-!
Shallow embedding of the distwq distributed work-queue controller and
collective broker (src/distwq.py), together with proofs about the
controller's scheduling, bookkeeping and result-retrieval behaviour.

Modelling conventions:
* Task ids are natural numbers (the controller auto-generates successive
  integers; all claims use integer ids).
* Result values are a type parameter `V`; the external name resolver and
  the user callable are out of scope, so a submission carries the value
  the resolved callable produces, plus the observed wall times.
* Wall-clock times are rationals; `total_time_est` lives in `WithTop ℚ`
  because index 0 is seeded with `np.inf` (`⊤`); `⊤ + t = ⊤` matches
  IEEE `inf + t = inf` for the additions performed by the code.
* The blocking loops (`submit_call` waiting for a ready worker,
  `get_result` waiting for a DONE) are modelled by supplying the stream
  of messages the loop absorbs; exhausting the stream without the wait
  condition becoming true is the `blocked` outcome (the Python loop
  would spin forever).
* Python `list.remove` / `dict.pop` on a present element is `List.erase`
  / pointwise update; the guarded step relation only delivers DONE
  messages for tasks actually assigned to the sender, which is where the
  code relies on presence.
-/

namespace Distwq

/-- Statistics record appended by workers and by the synchronous path of
`submit_call` (the dictionary built at src/distwq.py lines 310-314 and
545-549). -/
structure StatsRec where
  id : Nat
  rank : Nat
  this_time : ℚ
  time_over_est : ℚ
  n_processed : ℚ
  total_time : ℚ
  deriving Repr, DecidableEq

/-- Messages the controller can absorb in `MPIController.recv`:
READY (empty payload) and DONE `(task_id, value, stats)`. -/
inductive Msg (V : Type) where
  | ready (src : Nat)
  | done (src : Nat) (task_id : Nat) (value : V) (st : StatsRec)
  deriving Repr

/-- The mutable state of `MPIController` (src/distwq.py `__init__`,
lines 105-167).  Arrays indexed by rank become functions `Nat → _`;
Python dicts become `Nat → Option _`. -/
structure CtrlState (V : Type) where
  size : Nat
  workers_available : Bool
  count : Nat
  total_time_est : Nat → WithTop ℚ
  result_queue : List Nat
  task_queue : List Nat
  ready_workers : List Nat
  assigned : Nat → Option Nat
  worker_queue : Nat → List Nat
  n_processed : Nat → ℚ
  total_time : Nat → ℚ
  results : Nat → Option V
  stats : List StatsRec

/-- The constructor `MPIController.__init__(comm)`: fresh bookkeeping for a communicator
of the given size; `total_time_est` is `np.ones(size)` with index 0 set
to `np.inf`, every queue empty, `workers_available = size > 1`. -/
def initController (V : Type) (sz : Nat) : CtrlState V where
  size := sz
  workers_available := decide (1 < sz)
  count := 0
  total_time_est := fun i => if i = 0 then ⊤ else 1
  result_queue := []
  task_queue := []
  ready_workers := []
  assigned := fun _ => none
  worker_queue := fun _ => []
  n_processed := fun _ => 0
  total_time := fun _ => 0
  results := fun _ => none
  stats := []

/-- One message absorption in `MPIController.recv` (src/distwq.py lines
169-194).  READY appends the source to `ready_workers`; DONE records the
result and stats, updates the per-rank counters, moves the task id from
`task_queue` and the sender's `worker_queue` to `result_queue`, and
drops the `assigned` entry.  The empty-probe branch only sleeps and is
modelled by not taking a step. -/
def recv (s : CtrlState V) : Msg V → CtrlState V
  | Msg.ready w =>
      { s with ready_workers := s.ready_workers ++ [w] }
  | Msg.done w tid v st =>
      { s with
        results := fun i => if i = tid then some v else s.results i
        stats := s.stats ++ [st]
        n_processed := fun i => if i = w then st.n_processed else s.n_processed i
        total_time := fun i => if i = w then st.total_time else s.total_time i
        task_queue := s.task_queue.erase tid
        result_queue := s.result_queue ++ [tid]
        worker_queue := fun i => if i = w then (s.worker_queue w).erase tid else s.worker_queue i
        assigned := fun i => if i = tid then none else s.assigned i }

/-- The scheduling selection `l[np.argmin([f w for w in l])]`: the first
element of `l` attaining the minimal `f`-value (src/distwq.py lines
281-282; `np.argmin` returns the first index of the minimum). -/
def pickMin (f : Nat → WithTop ℚ) : List Nat → Option Nat
  | [] => none
  | a :: l =>
      match pickMin f l with
      | none => some a
      | some u => if f a ≤ f u then some a else some u

/-- Outcomes of `submit_call` other than a returned id: the duplicate-id
`RuntimeError` (line 276), and the wait-for-ready loop never finding a
ready worker (the `while True` at line 278 spinning forever). -/
inductive SubmitErr where
  | DuplicateId
  | Blocked
  deriving Repr, DecidableEq

/-- The bookkeeping tail shared by both branches of `submit_call`
(src/distwq.py lines 316-319): bump `total_time_est[worker]`, append
the id to `task_queue` and `worker_queue[worker]`, set
`assigned[task_id] = worker`. -/
def finishSubmit (s : CtrlState V) (tid worker : Nat) (time_est : ℚ) : CtrlState V :=
  { s with
    total_time_est := fun i => if i = worker then s.total_time_est worker + (time_est : WithTop ℚ) else s.total_time_est i
    task_queue := s.task_queue ++ [tid]
    worker_queue := fun i => if i = worker then s.worker_queue worker ++ [tid] else s.worker_queue i
    assigned := fun i => if i = tid then some worker else s.assigned i }

/-- The operation `MPIController.submit_call` (src/distwq.py lines 196-320).  `value`
is the value the resolved callable produces (name resolution and the
user function are the external collaborators); `this_time` the measured
wall time of the synchronous call and `now` the elapsed time since
start, both used only on the no-workers branch.  The wait-for-ready
loop is already resolved by interleaved `recv` steps, so the workers
branch blocks iff `ready_workers` is empty.  Returns the post state and
either the (possibly generated) task id or the error. -/
def submit_call (s : CtrlState V) (value : V) (time_est : ℚ) (task_id : Option Nat)
    (this_time now : ℚ) : CtrlState V × Except SubmitErr Nat :=
  let p : Nat × CtrlState V :=
    match task_id with
    | none => (s.count, { s with count := s.count + 1 })
    | some t => (t, s)
  let tid := p.1
  let s1 := p.2
  match s1.assigned tid with
  | some _ => (s1, Except.error SubmitErr.DuplicateId)
  | none =>
      if s1.workers_available then
        match pickMin s1.total_time_est s1.ready_workers with
        | none => (s1, Except.error SubmitErr.Blocked)
        | some w =>
            (finishSubmit { s1 with ready_workers := s1.ready_workers.erase w } tid w time_est,
             Except.ok tid)
      else
        let rec0 : StatsRec :=
          { id := tid, rank := 0, this_time := this_time,
            time_over_est := this_time / time_est,
            n_processed := s1.n_processed 0 + 1, total_time := now }
        let s2 : CtrlState V :=
          { s1 with
            results := fun i => if i = tid then some value else s1.results i
            n_processed := fun i => if i = 0 then s1.n_processed 0 + 1 else s1.n_processed i
            total_time := fun i => if i = 0 then now else s1.total_time i
            stats := s1.stats ++ [rec0] }
        (finishSubmit s2 tid 0 time_est, Except.ok tid)

/-- Failure outcomes of `get_result` / `get_next_result`: the
out-of-order `RuntimeError` at line 346, Python `KeyError` /
`IndexError` on the impossible paths, and the receive loop waiting
forever. -/
inductive GetErr where
  | OutOfOrder
  | KeyErr
  | IndexErr
  | Blocked
  deriving Repr, DecidableEq

/-- The `while not (task_id in results): self.recv()` loop of
`get_result` (src/distwq.py lines 352-353), absorbing the supplied
message stream; `none` when the stream runs out with the result still
missing (the Python loop would spin forever). -/
def driveRecv (tid : Nat) : CtrlState V → List (Msg V) → Option (CtrlState V)
  | s, [] => if (s.results tid).isSome then some s else none
  | s, m :: ms => if (s.results tid).isSome then some s else driveRecv tid (recv s m) ms

/-- The operation `MPIController.get_result` (src/distwq.py lines 322-363).  If the
result is already cached the pair is returned immediately with the
state untouched (line 341-342).  Otherwise the task must be in
`assigned`, must be the head of its worker's queue, and the receive
loop runs until the result arrives; only then is the id erased from
`result_queue` (line 362). -/
def get_result (s : CtrlState V) (tid : Nat) (msgs : List (Msg V)) :
    Except GetErr (CtrlState V × Nat × V) :=
  match s.results tid with
  | some v => Except.ok (s, tid, v)
  | none =>
      match s.assigned tid with
      | none => Except.error GetErr.KeyErr
      | some source =>
          if s.workers_available then
            match (s.worker_queue source).head? with
            | none => Except.error GetErr.IndexErr
            | some h =>
                if h = tid then
                  match driveRecv tid s msgs with
                  | none => Except.error GetErr.Blocked
                  | some s2 =>
                      match s2.results tid with
                      | some v =>
                          Except.ok ({ s2 with result_queue := s2.result_queue.erase tid }, tid, v)
                      | none => Except.error GetErr.KeyErr
                else Except.error GetErr.OutOfOrder
          else
            Except.error GetErr.KeyErr

/-- The operation `MPIController.get_next_result` (src/distwq.py lines 365-385): pop
the head of `result_queue` if non-empty, else fall back to
`get_result` on the head of `task_queue`, else `none`. -/
def get_next_result (s : CtrlState V) (msgs : List (Msg V)) :
    Except GetErr (CtrlState V × Option (Nat × V)) :=
  match s.result_queue with
  | tid :: rest =>
      match s.results tid with
      | some v => Except.ok ({ s with result_queue := rest }, some (tid, v))
      | none => Except.error GetErr.KeyErr
  | [] =>
      match s.task_queue with
      | tid :: _ =>
          match get_result s tid msgs with
          | Except.ok (s2, p) => Except.ok (s2, some p)
          | Except.error e => Except.error e
      | [] => Except.ok (s, none)

/-- Failure outcomes of the collective broker's task handling
(`MPICollectiveBroker.serve`, src/distwq.py lines 697-766):
`NameErr` is the `NameError` raised at line 734, where the
`is_worker` branch evaluates `object_to_call(*args, **kwargs)` although
`object_to_call` is never defined anywhere in that scope (the broker
never resolves the symbol); `EmptyArgmax` is `np.argmax` on an empty
array (line 762) when every gathered result is filtered out;
`NoneStat` is subscripting a `None` stats entry (line 761). -/
inductive BrokerErr where
  | NameErr
  | EmptyArgmax
  | NoneStat
  deriving Repr, DecidableEq

/-- The representative-statistics selection `stats[np.argmax(stat_times)]`
(src/distwq.py lines 761-763): the first record attaining the maximal
`f`-value (`np.argmax` returns the first index of the maximum). -/
def pickMax (f : StatsRec → ℚ) : List StatsRec → Option StatsRec
  | [] => none
  | a :: l =>
      match pickMax f l with
      | none => some a
      | some b => if f a < f b then some b else some a

/-- The check that every filtered stats entry is a real record, as
needed by `stat["this_time"]` at line 761; `none` if any entry is the
Python `None`. -/
def collectStats : List (Option StatsRec) → Option (List StatsRec)
  | [] => some []
  | none :: _ => none
  | some st :: rest => (collectStats rest).map fun l => st :: l

/-- The TASK-handling tail of `MPICollectiveBroker.serve`
(src/distwq.py lines 731-766), producing the DONE payload
`(task_id, results, stat)` sent to the controller.  `worker_data` is
the `(value, stats)` pair gathered from each spawned collective worker,
in merged-rank order after the broker (the broker itself is merged rank
0, so the gathered `sub_data` is its own contribution consed in front).
If `is_worker` is true the code evaluates the undefined name
`object_to_call` and dies with a `NameError`; otherwise the broker
contributes `(None, None)`, both gathered lists are filtered by
`result is not None`, and the reported stats record is the one with the
maximal `this_time` among the kept entries. -/
def brokerHandleTask (is_worker : Bool)
    (worker_data : List (Option V × Option StatsRec)) (task_id : Nat) :
    Except BrokerErr (Nat × List V × StatsRec) :=
  if is_worker then Except.error BrokerErr.NameErr
  else
    let sub_data := ((none, none) : Option V × Option StatsRec) :: worker_data
    let results := sub_data.filterMap Prod.fst
    let stats0 := (sub_data.filter fun p => p.1.isSome).map Prod.snd
    match collectStats stats0 with
    | none => Except.error BrokerErr.NoneStat
    | some sts =>
        match pickMax (fun st => st.this_time) sts with
        | none => Except.error BrokerErr.EmptyArgmax
        | some st => Except.ok (task_id, results, st)

/-- A controller-side operation, for reasoning about whole runs of the
public API plus the internal receive step. -/
inductive CtrlOp (V : Type) where
  | submit (value : V) (time_est : ℚ) (task_id : Option Nat) (this_time now : ℚ)
  | recvMsg (m : Msg V)
  | getResult (tid : Nat) (msgs : List (Msg V))
  | getNext (msgs : List (Msg V))

/-- The controller state after one operation; failing operations leave
the bookkeeping as it was when the exception escapes (no operation
mutates `count` before failing). -/
def applyOp (s : CtrlState V) : CtrlOp V → CtrlState V
  | CtrlOp.submit v te tid t n => (submit_call s v te tid t n).1
  | CtrlOp.recvMsg m => recv s m
  | CtrlOp.getResult tid msgs =>
      match get_result s tid msgs with
      | Except.ok (s2, _) => s2
      | Except.error _ => s
  | CtrlOp.getNext msgs =>
      match get_next_result s msgs with
      | Except.ok (s2, _) => s2
      | Except.error _ => s

/-- The ids generated by `task_id = self.count; self.count += 1`
(src/distwq.py lines 272-274) over a run: one per `submit_call` whose
caller omitted the id. -/
def autoIds (s : CtrlState V) : List (CtrlOp V) → List Nat
  | [] => []
  | op :: ops =>
      match op with
      | CtrlOp.submit _ _ none _ _ => s.count :: autoIds (applyOp s op) ops
      | _ => autoIds (applyOp s op) ops

/-- One transition of the controller: absorbing a READY from a genuine
worker rank, absorbing a DONE for a task actually assigned to the
sender (the only DONE messages the worker protocol can produce), or a
`submit_call` with any outcome. -/
inductive Step (V : Type) : CtrlState V → CtrlState V → Prop where
  | ready (s : CtrlState V) (w : Nat) (h1 : 1 ≤ w) (h2 : w < s.size) :
      Step V s (recv s (Msg.ready w))
  | done (s : CtrlState V) (w tid : Nat) (v : V) (st : StatsRec)
      (h : s.assigned tid = some w) :
      Step V s (recv s (Msg.done w tid v st))
  | submit (s : CtrlState V) (value : V) (te t n : ℚ) (tid : Option Nat) :
      Step V s (submit_call s value te tid t n).1

/-- Controller states reachable from a fresh controller on a
communicator of size `sz` by submissions and receive steps. -/
def Reachable (V : Type) (sz : Nat) : CtrlState V → Prop :=
  Relation.ReflTransGen (Step V) (initController V sz)

/-- The inductive invariant of the controller bookkeeping: in-flight
ids are exactly the keys of `assigned`, each sits in its worker's
queue, the per-worker queues partition the task queue, ready workers
are genuine ranks, and the task queue has no duplicates. -/
structure Inv (s : CtrlState V) : Prop where
  size_pos : 0 < s.size
  ready_lt : ∀ w ∈ s.ready_workers, 1 ≤ w ∧ w < s.size
  nodup : s.task_queue.Nodup
  mem_iff : ∀ tid, (s.assigned tid).isSome = true ↔ tid ∈ s.task_queue
  in_wq : ∀ tid w, s.assigned tid = some w → tid ∈ s.worker_queue w ∧ w < s.size
  sum_eq : (∑ i ∈ Finset.range s.size, (s.worker_queue i).length) = s.task_queue.length

/-! ### Properties of the argmin / argmax selections -/

theorem pickMin_eq_none_iff (f : Nat → WithTop ℚ) (l : List Nat) :
    pickMin f l = none ↔ l = [] := by
  cases l with
  | nil => simp [pickMin]
  | cons a t =>
      simp only [pickMin]
      cases h : pickMin f t with
      | none => simp
      | some u => by_cases hle : f a ≤ f u <;> simp [hle]

theorem pickMin_mem (f : Nat → WithTop ℚ) {l : List Nat} :
    ∀ {w : Nat}, pickMin f l = some w → w ∈ l := by
  induction l with
  | nil => intro w h; simp [pickMin] at h
  | cons a t ih =>
      intro w h
      simp only [pickMin] at h
      cases hp : pickMin f t with
      | none => rw [hp] at h; simp at h; simp [h]
      | some u =>
          rw [hp] at h
          by_cases hle : f a ≤ f u
          · simp [hle] at h; simp [h]
          · simp [hle] at h
            subst h
            exact List.mem_cons_of_mem a (ih hp)

theorem pickMin_le (f : Nat → WithTop ℚ) {l : List Nat} :
    ∀ {w : Nat}, pickMin f l = some w → ∀ u ∈ l, f w ≤ f u := by
  induction l with
  | nil => intro w h; simp [pickMin] at h
  | cons a t ih =>
      intro w h
      simp only [pickMin] at h
      cases hp : pickMin f t with
      | none =>
          rw [hp] at h
          have ht : t = [] := (pickMin_eq_none_iff f t).mp hp
          simp at h
          subst h
          subst ht
          simp
      | some u =>
          rw [hp] at h
          by_cases hle : f a ≤ f u
          · simp [hle] at h
            subst h
            intro x hx
            rcases List.mem_cons.mp hx with hx | hx
            · subst hx; exact le_rfl
            · exact le_trans hle (ih hp x hx)
          · simp [hle] at h
            subst h
            intro x hx
            rcases List.mem_cons.mp hx with hx | hx
            · subst hx; exact le_of_lt (lt_of_not_le hle)
            · exact ih hp x hx

theorem pickMin_first (f : Nat → WithTop ℚ) {l : List Nat} :
    ∀ {w : Nat}, pickMin f l = some w →
      ∃ l1 l2, l = l1 ++ w :: l2 ∧ ∀ u ∈ l1, f w < f u := by
  induction l with
  | nil => intro w h; simp [pickMin] at h
  | cons a t ih =>
      intro w h
      simp only [pickMin] at h
      cases hp : pickMin f t with
      | none =>
          rw [hp] at h; simp at h; subst h
          exact ⟨[], t, rfl, by simp⟩
      | some u =>
          rw [hp] at h
          by_cases hle : f a ≤ f u
          · simp [hle] at h; subst h
            exact ⟨[], t, rfl, by simp⟩
          · simp [hle] at h; subst h
            obtain ⟨l1, l2, heq, hlt⟩ := ih hp
            refine ⟨a :: l1, l2, by rw [heq, List.cons_append], ?_⟩
            intro x hx
            rcases List.mem_cons.mp hx with hx | hx
            · subst hx; exact lt_of_not_le hle
            · exact hlt x hx

theorem pickMax_mem (f : StatsRec → ℚ) {l : List StatsRec} :
    ∀ {w : StatsRec}, pickMax f l = some w → w ∈ l := by
  induction l with
  | nil => intro w h; simp [pickMax] at h
  | cons a t ih =>
      intro w h
      simp only [pickMax] at h
      cases hp : pickMax f t with
      | none => rw [hp] at h; simp at h; simp [h]
      | some u =>
          rw [hp] at h
          by_cases hlt : f a < f u
          · simp [hlt] at h
            subst h
            exact List.mem_cons_of_mem a (ih hp)
          · simp [hlt] at h; simp [h]

theorem pickMax_ge (f : StatsRec → ℚ) {l : List StatsRec} :
    ∀ {w : StatsRec}, pickMax f l = some w → ∀ u ∈ l, f u ≤ f w := by
  induction l with
  | nil => intro w h; simp [pickMax] at h
  | cons a t ih =>
      intro w h
      simp only [pickMax] at h
      cases hp : pickMax f t with
      | none =>
          rw [hp] at h
          have ht : t = [] := by
            cases t with
            | nil => rfl
            | cons b r =>
                exfalso
                simp only [pickMax] at hp
                cases hq : pickMax f r with
                | none => rw [hq] at hp; simp at hp
                | some x => rw [hq] at hp; by_cases hb : f b < f x <;> simp [hb] at hp
          simp at h
          subst h
          subst ht
          simp
      | some u =>
          rw [hp] at h
          by_cases hlt : f a < f u
          · simp [hlt] at h
            subst h
            intro x hx
            rcases List.mem_cons.mp hx with hx | hx
            · subst hx; exact le_of_lt hlt
            · exact ih hp x hx
          · simp [hlt] at h
            subst h
            intro x hx
            rcases List.mem_cons.mp hx with hx | hx
            · subst hx; exact le_rfl
            · exact le_trans (ih hp x hx) (not_lt.mp hlt)

/-! ### Scheduling and duplicate-id behaviour of submit_call -/

/-- C3: when workers are available and some worker is ready,
`submit_call` assigns the task to the ready rank with the smallest
`total_time_est`, ties broken by order of appearance in
`ready_workers`; it removes that rank from `ready_workers`, appends the
id to `task_queue` and to that rank's `worker_queue`, sets
`assigned[task_id]` to that rank, and adds `time_est` to that rank's
`total_time_est`. -/
theorem submit_call_schedules_min_ready (V : Type) (s : CtrlState V) (value : V)
    (te t n : ℚ) (tid w : Nat)
    (hwa : s.workers_available = true)
    (hfresh : s.assigned tid = none)
    (hpick : pickMin s.total_time_est s.ready_workers = some w) :
    (submit_call s value te (some tid) t n).2 = Except.ok tid ∧
    w ∈ s.ready_workers ∧
    (∀ u ∈ s.ready_workers, s.total_time_est w ≤ s.total_time_est u) ∧
    (∃ l1 l2, s.ready_workers = l1 ++ w :: l2 ∧
        ∀ u ∈ l1, s.total_time_est w < s.total_time_est u) ∧
    ((submit_call s value te (some tid) t n).1).ready_workers = s.ready_workers.erase w ∧
    ((submit_call s value te (some tid) t n).1).task_queue = s.task_queue ++ [tid] ∧
    ((submit_call s value te (some tid) t n).1).worker_queue w = s.worker_queue w ++ [tid] ∧
    ((submit_call s value te (some tid) t n).1).assigned tid = some w ∧
    ((submit_call s value te (some tid) t n).1).total_time_est w
      = s.total_time_est w + (te : WithTop ℚ) := by
  have hstep : submit_call s value te (some tid) t n
      = (finishSubmit { s with ready_workers := s.ready_workers.erase w } tid w te,
         Except.ok tid) := by
    simp only [submit_call, hfresh, hwa, hpick, if_true]
  rw [hstep]
  refine ⟨rfl, pickMin_mem _ hpick, pickMin_le _ hpick, pickMin_first _ hpick,
    rfl, rfl, ?_, ?_, ?_⟩ <;> simp [finishSubmit]

/-- C4: a `submit_call` with a supplied `task_id` currently in
`assigned` fails with the duplicate-id error and leaves the controller
state untouched; a supplied `task_id` not in `assigned` never raises
that error. -/
theorem submit_call_duplicate_id (V : Type) (s : CtrlState V) (value : V)
    (te t n : ℚ) (tid : Nat) :
    ((s.assigned tid).isSome = true →
        submit_call s value te (some tid) t n = (s, Except.error SubmitErr.DuplicateId)) ∧
    (s.assigned tid = none →
        (submit_call s value te (some tid) t n).2 ≠ Except.error SubmitErr.DuplicateId) := by
  constructor
  · intro h
    cases ha : s.assigned tid with
    | none => rw [ha] at h; simp at h
    | some u => simp only [submit_call, ha]
  · intro ha
    simp only [submit_call, ha]
    by_cases hwa : s.workers_available
    · simp only [hwa, if_true]
      cases hp : pickMin s.total_time_est s.ready_workers with
      | none => simp
      | some u => simp
    · simp only [hwa, if_false]
      simp

/-- C5: `get_result` on a task whose result has not arrived and which is
not the head of its assigned worker's queue fails with the out-of-order
error. -/
theorem get_result_out_of_order (V : Type) (s : CtrlState V) (tid w h0 : Nat)
    (msgs : List (Msg V))
    (hres : s.results tid = none)
    (hass : s.assigned tid = some w)
    (hwa : s.workers_available = true)
    (hhead : (s.worker_queue w).head? = some h0)
    (hne : h0 ≠ tid) :
    get_result s tid msgs = Except.error GetErr.OutOfOrder := by
  simp only [get_result, hres, hass, hwa, if_true, hhead]
  simp [hne]


theorem submit_call_schedules_min_ready_witness :
    (recv (recv (initController Nat 3) (Msg.ready 1)) (Msg.ready 2)).workers_available = true ∧
    (recv (recv (initController Nat 3) (Msg.ready 1)) (Msg.ready 2)).assigned 5 = none ∧
    pickMin (recv (recv (initController Nat 3) (Msg.ready 1)) (Msg.ready 2)).total_time_est (recv (recv (initController Nat 3) (Msg.ready 1)) (Msg.ready 2)).ready_workers = some 1 ∧
    (submit_call (recv (recv (initController Nat 3) (Msg.ready 1)) (Msg.ready 2)) 9 1 (some 5) 0 0).2 = Except.ok 5 ∧
    (submit_call (recv (recv (initController Nat 3) (Msg.ready 1)) (Msg.ready 2)) 9 1 (some 5) 0 0).1.ready_workers = [2] ∧
    (submit_call (recv (recv (initController Nat 3) (Msg.ready 1)) (Msg.ready 2)) 9 1 (some 5) 0 0).1.task_queue = [5] ∧
    (submit_call (recv (recv (initController Nat 3) (Msg.ready 1)) (Msg.ready 2)) 9 1 (some 5) 0 0).1.assigned 5 = some 1 := by
  have h := submit_call_schedules_min_ready Nat (recv (recv (initController Nat 3) (Msg.ready 1)) (Msg.ready 2)) 9 1 0 0 5 1 rfl rfl (by decide)
  exact ⟨rfl, rfl, by decide, h.1, h.2.2.2.2.1, h.2.2.2.2.2.1, h.2.2.2.2.2.2.2.1⟩

theorem submit_call_duplicate_id_witness :
    (((submit_call (recv (initController Nat 2) (Msg.ready 1)) 5 1 (some 7) 0 0).1).assigned 7).isSome = true ∧
    submit_call ((submit_call (recv (initController Nat 2) (Msg.ready 1)) 5 1 (some 7) 0 0).1) 5 1 (some 7) 0 0 = (((submit_call (recv (initController Nat 2) (Msg.ready 1)) 5 1 (some 7) 0 0).1), Except.error SubmitErr.DuplicateId) ∧
    ((submit_call (recv (initController Nat 2) (Msg.ready 1)) 5 1 (some 7) 0 0).1).assigned 8 = none ∧
    (submit_call ((submit_call (recv (initController Nat 2) (Msg.ready 1)) 5 1 (some 7) 0 0).1) 5 1 (some 8) 0 0).2 ≠ Except.error SubmitErr.DuplicateId := by
  refine ⟨rfl, (submit_call_duplicate_id Nat ((submit_call (recv (initController Nat 2) (Msg.ready 1)) 5 1 (some 7) 0 0).1) 5 1 0 0 7).1 rfl, rfl,
    (submit_call_duplicate_id Nat ((submit_call (recv (initController Nat 2) (Msg.ready 1)) 5 1 (some 7) 0 0).1) 5 1 0 0 8).2 rfl⟩

theorem get_result_out_of_order_witness :
    ((submit_call (recv ((submit_call (recv (initController Nat 2) (Msg.ready 1)) 9 1 (some 10) 0 0).1) (Msg.ready 1)) 9 1 (some 11) 0 0).1).results 11 = none ∧
    ((submit_call (recv ((submit_call (recv (initController Nat 2) (Msg.ready 1)) 9 1 (some 10) 0 0).1) (Msg.ready 1)) 9 1 (some 11) 0 0).1).assigned 11 = some 1 ∧
    ((submit_call (recv ((submit_call (recv (initController Nat 2) (Msg.ready 1)) 9 1 (some 10) 0 0).1) (Msg.ready 1)) 9 1 (some 11) 0 0).1).workers_available = true ∧
    (((submit_call (recv ((submit_call (recv (initController Nat 2) (Msg.ready 1)) 9 1 (some 10) 0 0).1) (Msg.ready 1)) 9 1 (some 11) 0 0).1).worker_queue 1).head? = some 10 ∧
    get_result ((submit_call (recv ((submit_call (recv (initController Nat 2) (Msg.ready 1)) 9 1 (some 10) 0 0).1) (Msg.ready 1)) 9 1 (some 11) 0 0).1) 11 [] = Except.error GetErr.OutOfOrder := by
  refine ⟨rfl, rfl, rfl, rfl,
    get_result_out_of_order Nat ((submit_call (recv ((submit_call (recv (initController Nat 2) (Msg.ready 1)) 9 1 (some 10) 0 0).1) (Msg.ready 1)) 9 1 (some 11) 0 0).1) 11 1 10 [] rfl rfl rfl rfl (by decide)⟩


/-! ### Result retrieval -/

/-- C6 counterexample: a reachable state (one task submitted to worker 1
and its DONE absorbed) in which `get_result` returns successfully while
the task id is still in `result_queue` in the post-state: the cached
early return at src/distwq.py line 341-342 skips the removal at line
362, so the post-state is the unchanged pre-state and still holds id 0
in `result_queue`. -/
theorem get_result_leaves_result_queue_cex :
    get_result (recv ((submit_call (recv (initController Nat 2) (Msg.ready 1)) 9 1 none 0 0).1) (Msg.done 1 0 9 (StatsRec.mk 0 1 1 1 1 1))) 0 [] = Except.ok ((recv ((submit_call (recv (initController Nat 2) (Msg.ready 1)) 9 1 none 0 0).1) (Msg.done 1 0 9 (StatsRec.mk 0 1 1 1 1 1))), 0, 9) ∧
    0 ∈ (recv ((submit_call (recv (initController Nat 2) (Msg.ready 1)) 9 1 none 0 0).1) (Msg.done 1 0 9 (StatsRec.mk 0 1 1 1 1 1))).result_queue :=
  ⟨rfl, by decide⟩

/-- C6 amended: `get_result` erases the first occurrence of the task id
from `result_queue` only on the path that still has to wait for the
result (id not yet in `results` when called); when the result is
already cached at call time, `get_result` returns immediately with the
controller state unchanged, leaving any `result_queue` entry in
place. -/
theorem get_result_result_queue_amended (V : Type) (s : CtrlState V) (tid : Nat)
    (msgs : List (Msg V)) :
    (∀ v, s.results tid = some v → get_result s tid msgs = Except.ok (s, tid, v)) ∧
    (∀ s2 v, s.results tid = none → get_result s tid msgs = Except.ok (s2, tid, v) →
        ∃ s1, driveRecv tid s msgs = some s1 ∧
          s2.result_queue = s1.result_queue.erase tid) := by
  constructor
  · intro v hv
    simp [get_result, hv]
  · intro s2 v hres hok
    cases hass : s.assigned tid with
    | none => simp [get_result, hres, hass] at hok
    | some src =>
        by_cases hwa : s.workers_available = true
        · cases hhead : (s.worker_queue src).head? with
          | none => simp [get_result, hres, hass, hwa, hhead] at hok
          | some h0 =>
              by_cases hh : h0 = tid
              · cases hdrive : driveRecv tid s msgs with
                | none => simp [get_result, hres, hass, hwa, hhead, hh, hdrive] at hok
                | some sd =>
                    cases hvd : sd.results tid with
                    | none =>
                        simp [get_result, hres, hass, hwa, hhead, hh, hdrive, hvd] at hok
                    | some vv =>
                        simp only [get_result, hres, hass, hwa, hhead, hh, hdrive, hvd,
                          if_true, Except.ok.injEq, Prod.mk.injEq] at hok
                        exact ⟨sd, rfl, by rw [← hok.1]⟩
              · simp [get_result, hres, hass, hwa, hhead, hh] at hok
        · simp [get_result, hres, hass, hwa] at hok

theorem get_result_result_queue_amended_witness :
    (recv ((submit_call (recv (initController Nat 2) (Msg.ready 1)) 5 1 none 0 0).1) (Msg.done 1 0 5 (StatsRec.mk 0 1 1 1 1 1))).results 0 = some 5 ∧
    get_result (recv ((submit_call (recv (initController Nat 2) (Msg.ready 1)) 5 1 none 0 0).1) (Msg.done 1 0 5 (StatsRec.mk 0 1 1 1 1 1))) 0 [] = Except.ok ((recv ((submit_call (recv (initController Nat 2) (Msg.ready 1)) 5 1 none 0 0).1) (Msg.done 1 0 5 (StatsRec.mk 0 1 1 1 1 1))), 0, 5) :=
  ⟨rfl, (get_result_result_queue_amended Nat (recv ((submit_call (recv (initController Nat 2) (Msg.ready 1)) 5 1 none 0 0).1) (Msg.done 1 0 5 (StatsRec.mk 0 1 1 1 1 1))) 0 []).1 5 rfl⟩

/-- C1: with no workers available, `submit_call` executes the call
synchronously on the controller rank: the submitted call's value is
stored in `results[task_id]` before `submit_call` returns, stats are
appended with rank 0, `n_processed[0]` and `total_time[0]` are updated,
the task is booked under rank 0, and a later `get_result(id)` (now or
at any later state in which the cached entry still holds this value)
returns exactly the pair `(id, value)`. -/
theorem submit_call_sync_no_workers (V : Type) (s : CtrlState V) (value : V) (te t n : ℚ)
    (hwa : s.workers_available = false) (hfresh : s.assigned s.count = none) :
    (submit_call s value te none t n).2 = Except.ok s.count ∧
    ((submit_call s value te none t n).1).results s.count = some value ∧
    ((submit_call s value te none t n).1).n_processed 0 = s.n_processed 0 + 1 ∧
    ((submit_call s value te none t n).1).total_time 0 = n ∧
    ((submit_call s value te none t n).1).stats
      = s.stats ++ [StatsRec.mk s.count 0 t (t / te) (s.n_processed 0 + 1) n] ∧
    ((submit_call s value te none t n).1).assigned s.count = some 0 ∧
    ((submit_call s value te none t n).1).worker_queue 0 = s.worker_queue 0 ++ [s.count] ∧
    get_result (submit_call s value te none t n).1 s.count []
      = Except.ok ((submit_call s value te none t n).1, s.count, value) ∧
    (∀ (s2 : CtrlState V) (msgs : List (Msg V)), s2.results s.count = some value →
        get_result s2 s.count msgs = Except.ok (s2, s.count, value)) := by
  have hgen : ∀ (s2 : CtrlState V) (msgs : List (Msg V)), s2.results s.count = some value →
      get_result s2 s.count msgs = Except.ok (s2, s.count, value) := by
    intro s2 msgs h2
    simp [get_result, h2]
  have hres : ((submit_call s value te none t n).1).results s.count = some value := by
    simp [submit_call, hfresh, hwa, finishSubmit]
  refine ⟨?_, hres, ?_, ?_, ?_, ?_, ?_, hgen _ [] hres, hgen⟩ <;>
    simp [submit_call, hfresh, hwa, finishSubmit]

theorem submit_call_sync_no_workers_witness :
    (initController Nat 1).workers_available = false ∧
    (initController Nat 1).assigned 0 = none ∧
    (submit_call (initController Nat 1) 9 1 none 0 0).2 = Except.ok 0 ∧
    ((submit_call (initController Nat 1) 9 1 none 0 0).1).results 0 = some 9 ∧
    get_result (submit_call (initController Nat 1) 9 1 none 0 0).1 0 []
      = Except.ok ((submit_call (initController Nat 1) 9 1 none 0 0).1, 0, 9) := by
  have h := submit_call_sync_no_workers Nat (initController Nat 1) 9 1 0 0 rfl rfl
  exact ⟨rfl, rfl, h.1, h.2.1, h.2.2.2.2.2.2.2.1⟩

/-- C7, evaluated at the failing input: in single-process (no workers)
mode, after two submissions (auto ids 0 and 1, values 9 and 16),
`get_next_result` returns `(0, 9)` with the controller state returned
unchanged — `result_queue` is never populated on this path and
`get_result`'s cached early return never consumes `task_queue` — so
every later call returns `(0, 9)` again: the N calls do not return N
distinct ids and the (N+1)-th call never returns none. -/
theorem get_next_result_no_workers_repeats :
    get_next_result ((submit_call ((submit_call (initController Nat 1) 9 1 none 0 0).1) 16 1 none 0 0).1) [] = Except.ok (((submit_call ((submit_call (initController Nat 1) 9 1 none 0 0).1) 16 1 none 0 0).1), some (0, 9)) ∧
    ((submit_call ((submit_call (initController Nat 1) 9 1 none 0 0).1) 16 1 none 0 0).1).results 1 = some 16 ∧
    ((submit_call ((submit_call (initController Nat 1) 9 1 none 0 0).1) 16 1 none 0 0).1).task_queue = [0, 1] ∧
    ((submit_call ((submit_call (initController Nat 1) 9 1 none 0 0).1) 16 1 none 0 0).1).result_queue = [] :=
  ⟨rfl, rfl, rfl, rfl⟩


/-! ### The controller bookkeeping invariant (C2) -/

theorem sum_len_append_at (wq : Nat → List Nat) (w n tid : Nat) (hw : w < n) :
    (∑ i ∈ Finset.range n, (if i = w then wq w ++ [tid] else wq i).length)
      = (∑ i ∈ Finset.range n, (wq i).length) + 1 := by
  have h1 : ∀ i, (if i = w then wq w ++ [tid] else wq i).length
      = (wq i).length + (if i = w then 1 else 0) := by
    intro i
    by_cases h : i = w
    · subst h; simp
    · simp [h]
  calc (∑ i ∈ Finset.range n, (if i = w then wq w ++ [tid] else wq i).length)
      = ∑ i ∈ Finset.range n, ((wq i).length + if i = w then 1 else 0) :=
        Finset.sum_congr rfl fun i _ => h1 i
    _ = (∑ i ∈ Finset.range n, (wq i).length)
          + ∑ i ∈ Finset.range n, (if i = w then 1 else 0) := Finset.sum_add_distrib
    _ = (∑ i ∈ Finset.range n, (wq i).length) + 1 := by
        rw [Finset.sum_ite_eq' (Finset.range n) w (fun _ => 1)]
        simp [hw]

theorem sum_len_erase_at (wq : Nat → List Nat) (w n tid : Nat) (hw : w < n)
    (hmem : tid ∈ wq w) :
    (∑ i ∈ Finset.range n, (if i = w then (wq w).erase tid else wq i).length) + 1
      = ∑ i ∈ Finset.range n, (wq i).length := by
  have hwmem : w ∈ Finset.range n := Finset.mem_range.mpr hw
  rw [← Finset.sum_erase_add (Finset.range n) (fun i => (wq i).length) hwmem,
    ← Finset.sum_erase_add (Finset.range n)
      (fun i => (if i = w then (wq w).erase tid else wq i).length) hwmem]
  have hcongr : ∀ i ∈ (Finset.range n).erase w,
      (if i = w then (wq w).erase tid else wq i).length = (wq i).length := by
    intro i hi
    rw [if_neg (Finset.ne_of_mem_erase hi)]
  rw [Finset.sum_congr rfl hcongr, if_pos rfl, add_assoc,
    List.length_erase_add_one hmem]

theorem inv_init (V : Type) (sz : Nat) (hsz : 0 < sz) : Inv (initController V sz) := by
  refine ⟨hsz, ?_, ?_, ?_, ?_, ?_⟩ <;> simp [initController]

theorem inv_count_set (s : CtrlState V) (c : Nat) (hinv : Inv s) :
    Inv { s with count := c } := by
  obtain ⟨hsz, hrl, hnd, hmi, hwq, hsum⟩ := hinv
  exact ⟨hsz, hrl, hnd, hmi, hwq, hsum⟩

theorem inv_obs_set (s : CtrlState V) (r : Nat → Option V) (np tt : Nat → ℚ)
    (st : List StatsRec) (hinv : Inv s) :
    Inv { s with results := r, n_processed := np, total_time := tt, stats := st } := by
  obtain ⟨hsz, hrl, hnd, hmi, hwq, hsum⟩ := hinv
  exact ⟨hsz, hrl, hnd, hmi, hwq, hsum⟩

theorem inv_count_ready_erase (s : CtrlState V) (c w : Nat) (hinv : Inv s) :
    Inv { s with count := c, ready_workers := s.ready_workers.erase w } := by
  obtain ⟨hsz, hrl, hnd, hmi, hwq, hsum⟩ := hinv
  refine ⟨hsz, ?_, hnd, hmi, hwq, hsum⟩
  intro u hu
  exact hrl u (List.mem_of_mem_erase hu)

theorem inv_count_obs_set (s : CtrlState V) (c : Nat) (r : Nat → Option V)
    (np tt : Nat → ℚ) (st : List StatsRec) (hinv : Inv s) :
    Inv { s with
          count := c
          results := r
          n_processed := np
          total_time := tt
          stats := st } := by
  obtain ⟨hsz, hrl, hnd, hmi, hwq, hsum⟩ := hinv
  exact ⟨hsz, hrl, hnd, hmi, hwq, hsum⟩

theorem inv_ready_erase (s : CtrlState V) (w : Nat) (hinv : Inv s) :
    Inv { s with ready_workers := s.ready_workers.erase w } := by
  obtain ⟨hsz, hrl, hnd, hmi, hwq, hsum⟩ := hinv
  refine ⟨hsz, ?_, hnd, hmi, hwq, hsum⟩
  intro u hu
  exact hrl u (List.mem_of_mem_erase hu)

theorem inv_finishSubmit (s : CtrlState V) (tid w : Nat) (te : ℚ)
    (hinv : Inv s) (hw : w < s.size) (hfresh : s.assigned tid = none) :
    Inv (finishSubmit s tid w te) := by
  obtain ⟨hsz, hrl, hnd, hmi, hwq, hsum⟩ := hinv
  have htid : tid ∉ s.task_queue := by
    intro hmem
    have hcontra := (hmi tid).mpr hmem
    rw [hfresh] at hcontra
    simp at hcontra
  refine ⟨hsz, hrl, ?_, ?_, ?_, ?_⟩
  · show (s.task_queue ++ [tid]).Nodup
    simp [List.nodup_append, hnd, htid]
  · intro x
    show (if x = tid then some w else s.assigned x).isSome = true ↔ x ∈ s.task_queue ++ [tid]
    by_cases hx : x = tid
    · subst hx; simp
    · rw [if_neg hx]
      simp [hmi x, hx]
  · intro x w2 hx
    have hx2 : (if x = tid then some w else s.assigned x) = some w2 := hx
    by_cases hxt : x = tid
    · rw [if_pos hxt] at hx2
      injection hx2 with hw2
      subst hw2
      refine ⟨?_, hw⟩
      show x ∈ (if w = w then s.worker_queue w ++ [tid] else s.worker_queue w)
      rw [if_pos rfl]
      exact List.mem_append_right _ (by simp [hxt])
    · rw [if_neg hxt] at hx2
      obtain ⟨hm, hlt⟩ := hwq x w2 hx2
      refine ⟨?_, hlt⟩
      show x ∈ (if w2 = w then s.worker_queue w ++ [tid] else s.worker_queue w2)
      by_cases hw2 : w2 = w
      · subst hw2
        rw [if_pos rfl]
        exact List.mem_append_left _ hm
      · rw [if_neg hw2]
        exact hm
  · show (∑ i ∈ Finset.range s.size,
        (if i = w then s.worker_queue w ++ [tid] else s.worker_queue i).length)
      = (s.task_queue ++ [tid]).length
    rw [sum_len_append_at s.worker_queue w s.size tid hw, hsum]
    simp

theorem inv_recv_ready (s : CtrlState V) (w : Nat) (h1 : 1 ≤ w) (h2 : w < s.size)
    (hinv : Inv s) : Inv (recv s (Msg.ready w)) := by
  obtain ⟨hsz, hrl, hnd, hmi, hwq, hsum⟩ := hinv
  refine ⟨hsz, ?_, hnd, hmi, hwq, hsum⟩
  intro u hu
  have hu2 : u ∈ s.ready_workers ++ [w] := hu
  rcases List.mem_append.mp hu2 with hm | hm
  · exact hrl u hm
  · have : u = w := by simpa using hm
    subst this
    exact ⟨h1, h2⟩

theorem inv_recv_done (s : CtrlState V) (w tid : Nat) (v : V) (st : StatsRec)
    (h : s.assigned tid = some w) (hinv : Inv s) :
    Inv (recv s (Msg.done w tid v st)) := by
  obtain ⟨hsz, hrl, hnd, hmi, hwq, hsum⟩ := hinv
  have htq : tid ∈ s.task_queue := (hmi tid).mp (by simp [h])
  obtain ⟨hwmem, hwlt⟩ := hwq tid w h
  refine ⟨hsz, hrl, hnd.erase tid, ?_, ?_, ?_⟩
  · intro x
    show (if x = tid then none else s.assigned x).isSome = true ↔ x ∈ s.task_queue.erase tid
    by_cases hx : x = tid
    · subst hx
      simp [hnd.not_mem_erase]
    · rw [if_neg hx, hnd.mem_erase_iff]
      simp [hx, hmi x]
  · intro x w2 hx
    have hx2 : (if x = tid then none else s.assigned x) = some w2 := hx
    by_cases hxt : x = tid
    · subst hxt
      rw [if_pos rfl] at hx2
      simp at hx2
    · rw [if_neg hxt] at hx2
      obtain ⟨hm, hlt⟩ := hwq x w2 hx2
      constructor
      · show x ∈ (if w2 = w then (s.worker_queue w).erase tid else s.worker_queue w2)
        by_cases hw2 : w2 = w
        · subst hw2
          rw [if_pos rfl]
          exact (List.mem_erase_of_ne hxt).mpr hm
        · rw [if_neg hw2]
          exact hm
      · exact hlt
  · show (∑ i ∈ Finset.range s.size,
        (if i = w then (s.worker_queue w).erase tid else s.worker_queue i).length)
      = (s.task_queue.erase tid).length
    have hc := sum_len_erase_at s.worker_queue w s.size tid hwlt hwmem
    have hl := List.length_erase_add_one htq
    omega

theorem submit_inv (s : CtrlState V) (value : V) (te t n : ℚ) (tid : Option Nat)
    (hinv : Inv s) : Inv (submit_call s value te tid t n).1 := by
  cases tid with
  | none =>
      cases ha : s.assigned s.count with
      | some u =>
          have heq : (submit_call s value te none t n).1 = { s with count := s.count + 1 } := by
            simp [submit_call, ha]
          rw [heq]
          exact inv_count_set s _ hinv
      | none =>
          by_cases hwa : s.workers_available = true
          · cases hp : pickMin s.total_time_est s.ready_workers with
            | none =>
                have heq : (submit_call s value te none t n).1
                    = { s with count := s.count + 1 } := by
                  simp [submit_call, ha, hwa, hp]
                rw [heq]
                exact inv_count_set s _ hinv
            | some w =>
                have heq : (submit_call s value te none t n).1
                    = finishSubmit
                        { s with
                          count := s.count + 1
                          ready_workers := s.ready_workers.erase w } s.count w te := by
                  simp [submit_call, ha, hwa, hp]
                rw [heq]
                have hwlt : w < s.size := (hinv.ready_lt w (pickMin_mem _ hp)).2
                refine inv_finishSubmit _ s.count w te ?_ hwlt ha
                exact inv_count_ready_erase s (s.count + 1) w hinv
          · have heq : (submit_call s value te none t n).1
                = finishSubmit
                    { s with
                      count := s.count + 1
                      results := fun i => if i = s.count then some value else s.results i
                      n_processed := fun i => if i = 0 then s.n_processed 0 + 1 else s.n_processed i
                      total_time := fun i => if i = 0 then n else s.total_time i
                      stats := s.stats
                        ++ [StatsRec.mk s.count 0 t (t / te) (s.n_processed 0 + 1) n] }
                    s.count 0 te := by
              simp [submit_call, ha, hwa]
            rw [heq]
            refine inv_finishSubmit _ s.count 0 te ?_ hinv.size_pos ha
            exact inv_count_obs_set s (s.count + 1) _ _ _ _ hinv
  | some t0 =>
      cases ha : s.assigned t0 with
      | some u =>
          have heq : (submit_call s value te (some t0) t n).1 = s := by
            simp [submit_call, ha]
          rw [heq]
          exact hinv
      | none =>
          by_cases hwa : s.workers_available = true
          · cases hp : pickMin s.total_time_est s.ready_workers with
            | none =>
                have heq : (submit_call s value te (some t0) t n).1 = s := by
                  simp [submit_call, ha, hwa, hp]
                rw [heq]
                exact hinv
            | some w =>
                have heq : (submit_call s value te (some t0) t n).1
                    = finishSubmit
                        { s with ready_workers := s.ready_workers.erase w } t0 w te := by
                  simp [submit_call, ha, hwa, hp]
                rw [heq]
                have hwlt : w < s.size := (hinv.ready_lt w (pickMin_mem _ hp)).2
                exact inv_finishSubmit _ t0 w te (inv_ready_erase s w hinv) hwlt ha
          · have heq : (submit_call s value te (some t0) t n).1
                = finishSubmit
                    { s with
                      results := fun i => if i = t0 then some value else s.results i
                      n_processed := fun i => if i = 0 then s.n_processed 0 + 1 else s.n_processed i
                      total_time := fun i => if i = 0 then n else s.total_time i
                      stats := s.stats
                        ++ [StatsRec.mk t0 0 t (t / te) (s.n_processed 0 + 1) n] }
                    t0 0 te := by
              simp [submit_call, ha, hwa]
            rw [heq]
            refine inv_finishSubmit _ t0 0 te ?_ hinv.size_pos ha
            exact inv_obs_set _ _ _ _ _ hinv

theorem step_inv (s s2 : CtrlState V) (hstep : Step V s s2) (hinv : Inv s) : Inv s2 := by
  cases hstep with
  | ready w h1 h2 => exact inv_recv_ready s w h1 h2 hinv
  | done w tid v st h => exact inv_recv_done s w tid v st h hinv
  | submit value te t n tid => exact submit_inv s value te t n tid hinv

theorem reachable_inv (V : Type) (sz : Nat) (s : CtrlState V)
    (hsz : 0 < sz) (hreach : Reachable V sz s) : Inv s := by
  induction hreach with
  | refl => exact inv_init V sz hsz
  | tail _ hstep ih => exact step_inv _ _ hstep ih

/-- C2: in every controller state reachable by submissions and receive
steps, the key set of `assigned` is exactly the set of ids in
`task_queue`, every in-flight id sits in its assigned worker's queue,
and the per-worker queues partition the task queue:
`∑ i |worker_queue[i]| = |task_queue|` (hence also
`|assigned| = |task_queue|`, the task queue being duplicate-free). -/
theorem controller_queue_invariants (V : Type) (sz : Nat) (s : CtrlState V)
    (hsz : 0 < sz) (hreach : Reachable V sz s) :
    (∀ tid, (s.assigned tid).isSome = true ↔ tid ∈ s.task_queue) ∧
    (∀ tid w, s.assigned tid = some w → tid ∈ s.worker_queue w) ∧
    (∑ i ∈ Finset.range s.size, (s.worker_queue i).length) = s.task_queue.length := by
  obtain ⟨hsz2, hrl, hnd, hmi, hwq, hsum⟩ := reachable_inv V sz s hsz hreach
  exact ⟨hmi, fun tid w h => (hwq tid w h).1, hsum⟩


theorem controller_queue_invariants_witness :
    (0 : Nat) < 2 ∧
    ((((submit_call (recv (initController Nat 2) (Msg.ready 1)) 9 1 none 0 0).1).assigned 0).isSome = true ↔ 0 ∈ ((submit_call (recv (initController Nat 2) (Msg.ready 1)) 9 1 none 0 0).1).task_queue) ∧
    (∑ i ∈ Finset.range ((submit_call (recv (initController Nat 2) (Msg.ready 1)) 9 1 none 0 0).1).size, (((submit_call (recv (initController Nat 2) (Msg.ready 1)) 9 1 none 0 0).1).worker_queue i).length)
      = ((submit_call (recv (initController Nat 2) (Msg.ready 1)) 9 1 none 0 0).1).task_queue.length := by
  have hr : Reachable Nat 2 ((submit_call (recv (initController Nat 2) (Msg.ready 1)) 9 1 none 0 0).1) :=
    Relation.ReflTransGen.tail
      (Relation.ReflTransGen.tail Relation.ReflTransGen.refl
        (Step.ready (initController Nat 2) 1 (by decide) (by decide)))
      (Step.submit (recv (initController Nat 2) (Msg.ready 1)) 9 1 0 0 none)
  have h := controller_queue_invariants Nat 2 ((submit_call (recv (initController Nat 2) (Msg.ready 1)) 9 1 none 0 0).1) (by decide) hr
  exact ⟨by decide, h.1 0, h.2.2⟩

/-- C10: the duplicate-id check of `submit_call` tests membership only
in `assigned` (src/distwq.py line 275), and the receive step erases the
`assigned` entry when a DONE is absorbed (line 190); hence a task id
whose result has arrived but was not yet retrieved (still in `results`
and `result_queue`) is resubmitted without error, and the entry left
pending in `results` for that id is overwritten as soon as the
resubmitted task's own DONE is absorbed. -/
theorem resubmit_after_done (V : Type) (s : CtrlState V) (tid : Nat)
    (v v2 value : V) (st2 : StatsRec) (te t n : ℚ) (w2 : Nat)
    (hass : s.assigned tid = none) (hres : s.results tid = some v)
    (hq : tid ∈ s.result_queue) (hwa : s.workers_available = true)
    (hr : s.ready_workers ≠ []) :
    (∀ (s0 : CtrlState V) (w0 : Nat) (v0 : V) (st0 : StatsRec),
        (recv s0 (Msg.done w0 tid v0 st0)).assigned tid = none) ∧
    (submit_call s value te (some tid) t n).2 = Except.ok tid ∧
    ((submit_call s value te (some tid) t n).1).results tid = some v ∧
    tid ∈ ((submit_call s value te (some tid) t n).1).result_queue ∧
    (recv ((submit_call s value te (some tid) t n).1) (Msg.done w2 tid v2 st2)).results tid
      = some v2 := by
  cases hp : pickMin s.total_time_est s.ready_workers with
  | none => exact absurd ((pickMin_eq_none_iff _ _).mp hp) hr
  | some w =>
      have heq : submit_call s value te (some tid) t n
          = (finishSubmit { s with ready_workers := s.ready_workers.erase w } tid w te,
             Except.ok tid) := by
        simp [submit_call, hass, hwa, hp]
      refine ⟨?_, ?_, ?_, ?_, ?_⟩
      · intro s0 w0 v0 st0
        simp [recv]
      · rw [heq]
      · rw [heq]
        exact hres
      · rw [heq]
        exact hq
      · rw [heq]
        simp [recv]

theorem resubmit_after_done_witness :
    (recv (recv ((submit_call (recv (initController Nat 2) (Msg.ready 1)) 5 1 (some 7) 0 0).1) (Msg.done 1 7 5 (StatsRec.mk 7 1 1 1 1 1))) (Msg.ready 1)).assigned 7 = none ∧
    (recv (recv ((submit_call (recv (initController Nat 2) (Msg.ready 1)) 5 1 (some 7) 0 0).1) (Msg.done 1 7 5 (StatsRec.mk 7 1 1 1 1 1))) (Msg.ready 1)).results 7 = some 5 ∧
    7 ∈ (recv (recv ((submit_call (recv (initController Nat 2) (Msg.ready 1)) 5 1 (some 7) 0 0).1) (Msg.done 1 7 5 (StatsRec.mk 7 1 1 1 1 1))) (Msg.ready 1)).result_queue ∧
    (submit_call (recv (recv ((submit_call (recv (initController Nat 2) (Msg.ready 1)) 5 1 (some 7) 0 0).1) (Msg.done 1 7 5 (StatsRec.mk 7 1 1 1 1 1))) (Msg.ready 1)) 6 1 (some 7) 0 0).2 = Except.ok 7 ∧
    (recv ((submit_call (recv (recv ((submit_call (recv (initController Nat 2) (Msg.ready 1)) 5 1 (some 7) 0 0).1) (Msg.done 1 7 5 (StatsRec.mk 7 1 1 1 1 1))) (Msg.ready 1)) 6 1 (some 7) 0 0).1)
        (Msg.done 1 7 9 (StatsRec.mk 7 1 1 1 2 2))).results 7 = some 9 := by
  have h := resubmit_after_done Nat (recv (recv ((submit_call (recv (initController Nat 2) (Msg.ready 1)) 5 1 (some 7) 0 0).1) (Msg.done 1 7 5 (StatsRec.mk 7 1 1 1 1 1))) (Msg.ready 1)) 7 5 9 6 (StatsRec.mk 7 1 1 1 2 2) 1 0 0 1
    rfl rfl (by decide) rfl (by decide)
  exact ⟨rfl, rfl, by decide, h.2.1, h.2.2.2.2⟩


/-! ### The collective broker's gather (C8) -/

theorem pickMax_eq_none_iff (f : StatsRec → ℚ) (l : List StatsRec) :
    pickMax f l = none ↔ l = [] := by
  cases l with
  | nil => simp [pickMax]
  | cons a t =>
      simp only [pickMax]
      cases h : pickMax f t with
      | none => simp
      | some u => by_cases hlt : f a < f u <;> simp [hlt]

theorem broker_filterMap_fst (V : Type) (wd : List (V × StatsRec)) :
    List.filterMap Prod.fst
        (wd.map fun p => ((some p.1 : Option V), (some p.2 : Option StatsRec)))
      = wd.map Prod.fst := by
  induction wd with
  | nil => rfl
  | cons a t ih => simp only [List.map_cons, List.filterMap_cons, ih]

theorem broker_filter_map_some (V : Type) (wd : List (V × StatsRec)) :
    (((wd.map fun p => ((some p.1 : Option V), (some p.2 : Option StatsRec))).filter
        fun p => p.1.isSome).map Prod.snd) = wd.map fun p => some p.2 := by
  induction wd with
  | nil => rfl
  | cons a t ih => simp [List.filter_cons, ih]

theorem collectStats_map_some (l : List StatsRec) :
    collectStats (l.map fun st => some st) = some l := by
  induction l with
  | nil => rfl
  | cons a t ih => simp [collectStats, ih]

theorem brokerHandleTask_false_eq (V : Type) (wd : List (V × StatsRec)) (tid : Nat) :
    brokerHandleTask false (wd.map fun p => (some p.1, some p.2)) tid
      = match pickMax (fun st => st.this_time) (wd.map Prod.snd) with
        | none => Except.error BrokerErr.EmptyArgmax
        | some st => Except.ok (tid, wd.map Prod.fst, st) := by
  have h1 : List.filterMap Prod.fst
      ((((none, none) : Option V × Option StatsRec))
        :: wd.map fun p => (some p.1, some p.2)) = wd.map Prod.fst := by
    rw [List.filterMap_cons]
    exact broker_filterMap_fst V wd
  have h2 : collectStats
      (((((none, none) : Option V × Option StatsRec)
          :: wd.map fun p => (some p.1, some p.2)).filter
        fun p => p.1.isSome).map Prod.snd) = some (wd.map Prod.snd) := by
    rw [List.filter_cons]
    simp only [Option.isSome_none, Bool.false_eq_true, if_false, decide_eq_true_eq,
      broker_filter_map_some]
    have h3 : (wd.map fun p => some p.2) = (wd.map Prod.snd).map fun st => some st := by
      simp
    rw [h3, collectStats_map_some]
  simp only [brokerHandleTask, Bool.false_eq_true, if_false, h1, h2]

/-- C8 (code bug): for a task dispatched to a collective broker whose
merged group has size `K = worker_data.length + 1`: with
`broker_is_worker` false the broker contributes `(None, None)`, which
the gather-side filtering drops, so the DONE payload carries exactly
the `K − 1` worker values, and the reported stats record is one of the
contributing ranks' records attaining the maximal `this_time`; but with
`broker_is_worker` true the broker does not execute the task and
contribute a value as documented — `MPICollectiveBroker.serve` line 734
evaluates `object_to_call`, a name never defined in that scope, so the
broker dies with a `NameError` and no DONE of length `K` is ever
produced. -/
theorem brokerHandleTask_spec (V : Type) (wd : List (V × StatsRec)) (tid : Nat)
    (hne : wd ≠ []) :
    brokerHandleTask true (wd.map fun p => (some p.1, some p.2)) tid
        = Except.error BrokerErr.NameErr ∧
    ∃ st, brokerHandleTask false (wd.map fun p => (some p.1, some p.2)) tid
            = Except.ok (tid, wd.map Prod.fst, st) ∧
          st ∈ wd.map Prod.snd ∧
          (wd.map Prod.fst).length = wd.length ∧
          ∀ q ∈ wd, q.2.this_time ≤ st.this_time := by
  refine ⟨rfl, ?_⟩
  have hmapne : wd.map Prod.snd ≠ [] := by simpa using hne
  cases hp : pickMax (fun st => st.this_time) (wd.map Prod.snd) with
  | none => exact absurd ((pickMax_eq_none_iff _ _).mp hp) hmapne
  | some st =>
      refine ⟨st, ?_, pickMax_mem _ hp, by simp, ?_⟩
      · rw [brokerHandleTask_false_eq, hp]
      · intro q hq
        exact pickMax_ge _ hp q.2 (List.mem_map_of_mem Prod.snd hq)

theorem brokerHandleTask_spec_witness :
    ([((3 : Nat), StatsRec.mk 0 1 1 1 1 1), (4, StatsRec.mk 0 2 2 2 1 2)] :
        List (Nat × StatsRec)) ≠ [] ∧
    brokerHandleTask true
        (([((3 : Nat), StatsRec.mk 0 1 1 1 1 1), (4, StatsRec.mk 0 2 2 2 1 2)].map
          fun p => (some p.1, some p.2))) 0
      = Except.error BrokerErr.NameErr ∧
    brokerHandleTask false
        (([((3 : Nat), StatsRec.mk 0 1 1 1 1 1), (4, StatsRec.mk 0 2 2 2 1 2)].map
          fun p => (some p.1, some p.2))) 0
      = Except.ok (0, [3, 4], StatsRec.mk 0 2 2 2 1 2) := by
  refine ⟨by decide, (brokerHandleTask_spec Nat
    [((3 : Nat), StatsRec.mk 0 1 1 1 1 1), (4, StatsRec.mk 0 2 2 2 1 2)] 0 (by decide)).1,
    rfl⟩


/-! ### Auto-generated ids (C9) -/

theorem count_recv (s : CtrlState V) (m : Msg V) : (recv s m).count = s.count := by
  cases m <;> rfl

theorem count_driveRecv (tid : Nat) (msgs : List (Msg V)) :
    ∀ (s s2 : CtrlState V), driveRecv tid s msgs = some s2 → s2.count = s.count := by
  induction msgs with
  | nil =>
      intro s s2 h
      simp only [driveRecv] at h
      by_cases hr : (s.results tid).isSome
      · rw [if_pos hr] at h
        injection h with h2
        rw [← h2]
      · rw [if_neg hr] at h
        exact absurd h (by simp)
  | cons m ms ih =>
      intro s s2 h
      simp only [driveRecv] at h
      by_cases hr : (s.results tid).isSome
      · rw [if_pos hr] at h
        injection h with h2
        rw [← h2]
      · rw [if_neg hr] at h
        rw [ih (recv s m) s2 h, count_recv]

theorem count_get_result (s : CtrlState V) (tid : Nat) (msgs : List (Msg V))
    (s2 : CtrlState V) (p : Nat × V)
    (h : get_result s tid msgs = Except.ok (s2, p)) : s2.count = s.count := by
  cases hres : s.results tid with
  | some v =>
      simp only [get_result, hres, Except.ok.injEq, Prod.mk.injEq] at h
      rw [← h.1]
  | none =>
      cases hass : s.assigned tid with
      | none => simp [get_result, hres, hass] at h
      | some src =>
          by_cases hwa : s.workers_available = true
          · cases hhead : (s.worker_queue src).head? with
            | none => simp [get_result, hres, hass, hwa, hhead] at h
            | some h0 =>
                by_cases hh : h0 = tid
                · cases hdrive : driveRecv tid s msgs with
                  | none => simp [get_result, hres, hass, hwa, hhead, hh, hdrive] at h
                  | some sd =>
                      cases hvd : sd.results tid with
                      | none =>
                          simp [get_result, hres, hass, hwa, hhead, hh, hdrive, hvd] at h
                      | some vv =>
                          simp only [get_result, hres, hass, hwa, hhead, hh, hdrive, hvd,
                            if_true, Except.ok.injEq, Prod.mk.injEq] at h
                          rw [← h.1]
                          exact count_driveRecv tid msgs s sd hdrive
                · simp [get_result, hres, hass, hwa, hhead, hh] at h
          · simp [get_result, hres, hass, hwa] at h

theorem count_get_next_result (s : CtrlState V) (msgs : List (Msg V))
    (s2 : CtrlState V) (r : Option (Nat × V))
    (h : get_next_result s msgs = Except.ok (s2, r)) : s2.count = s.count := by
  cases hq : s.result_queue with
  | cons tid rest =>
      simp only [get_next_result, hq] at h
      cases hres : s.results tid with
      | some v =>
          rw [hres] at h
          simp only [Except.ok.injEq, Prod.mk.injEq] at h
          rw [← h.1]
      | none =>
          rw [hres] at h
          simp at h
  | nil =>
      cases ht : s.task_queue with
      | cons tid rest =>
          cases hg : get_result s tid msgs with
          | ok pr =>
              obtain ⟨s3, p3⟩ := pr
              simp only [get_next_result, hq, ht, hg, Except.ok.injEq, Prod.mk.injEq] at h
              rw [← h.1]
              exact count_get_result s tid msgs s3 p3 hg
          | error e =>
              simp only [get_next_result, hq, ht, hg] at h
              exact absurd h (by simp)
      | nil =>
          simp only [get_next_result, hq, ht, Except.ok.injEq, Prod.mk.injEq] at h
          rw [← h.1]

theorem count_submit (s : CtrlState V) (value : V) (te t n : ℚ) (tid : Option Nat) :
    ((submit_call s value te tid t n).1).count
      = match tid with
        | none => s.count + 1
        | some _ => s.count := by
  cases tid with
  | none =>
      cases ha : s.assigned s.count with
      | some u => simp [submit_call, ha]
      | none =>
          by_cases hwa : s.workers_available = true
          · cases hp : pickMin s.total_time_est s.ready_workers with
            | none => simp [submit_call, ha, hwa, hp]
            | some w => simp [submit_call, ha, hwa, hp, finishSubmit]
          · simp [submit_call, ha, hwa, finishSubmit]
  | some t0 =>
      cases ha : s.assigned t0 with
      | some u => simp [submit_call, ha]
      | none =>
          by_cases hwa : s.workers_available = true
          · cases hp : pickMin s.total_time_est s.ready_workers with
            | none => simp [submit_call, ha, hwa, hp]
            | some w => simp [submit_call, ha, hwa, hp, finishSubmit]
          · simp [submit_call, ha, hwa, finishSubmit]

theorem count_applyOp_le (s : CtrlState V) (op : CtrlOp V) :
    s.count ≤ (applyOp s op).count := by
  cases op with
  | submit v te tid t n =>
      have h := count_submit s v te t n tid
      show s.count ≤ ((submit_call s v te tid t n).1).count
      rw [h]
      cases tid <;> simp
  | recvMsg m =>
      show s.count ≤ (recv s m).count
      rw [count_recv]
  | getResult tid msgs =>
      show s.count ≤ (match get_result s tid msgs with
        | Except.ok (s2, _) => s2
        | Except.error _ => s).count
      cases hg : get_result s tid msgs with
      | ok pr =>
          obtain ⟨s3, p3⟩ := pr
          rw [count_get_result s tid msgs s3 p3 hg]
      | error e => exact le_rfl
  | getNext msgs =>
      show s.count ≤ (match get_next_result s msgs with
        | Except.ok (s2, _) => s2
        | Except.error _ => s).count
      cases hg : get_next_result s msgs with
      | ok pr =>
          obtain ⟨s3, r3⟩ := pr
          rw [count_get_next_result s msgs s3 r3 hg]
      | error e => exact le_rfl

theorem autoIds_ge (s : CtrlState V) (ops : List (CtrlOp V)) :
    ∀ x ∈ autoIds s ops, s.count ≤ x := by
  induction ops generalizing s with
  | nil => intro x hx; simp [autoIds] at hx
  | cons op rest ih =>
      intro x hx
      have htail : ∀ y ∈ autoIds (applyOp s op) rest, s.count ≤ y := fun y hy =>
        le_trans (count_applyOp_le s op) (ih (applyOp s op) y hy)
      cases op with
      | submit v te tid t n =>
          cases tid with
          | none =>
              simp only [autoIds] at hx
              rcases List.mem_cons.mp hx with hx2 | hx2
              · rw [hx2]
              · exact htail x hx2
          | some t0 => exact htail x (by simpa [autoIds] using hx)
      | recvMsg m => exact htail x (by simpa [autoIds] using hx)
      | getResult tid msgs => exact htail x (by simpa [autoIds] using hx)
      | getNext msgs => exact htail x (by simpa [autoIds] using hx)

/-- C9: over any run of controller operations, the ids generated by
`task_id = self.count; self.count += 1` for calls that omit the id form
a strictly increasing integer sequence: `count` starts at 0, is bumped
exactly when an id is auto-generated and is never decreased by any
other operation. -/
theorem auto_ids_strictly_increasing (V : Type) (s : CtrlState V)
    (ops : List (CtrlOp V)) : (autoIds s ops).Sorted (· < ·) := by
  induction ops generalizing s with
  | nil => simp [autoIds]
  | cons op rest ih =>
      cases op with
      | submit v te tid t n =>
          cases tid with
          | none =>
              simp only [autoIds]
              refine List.sorted_cons.mpr ⟨?_, ih _⟩
              intro b hb
              have h1 := autoIds_ge (applyOp s (CtrlOp.submit v te none t n)) rest b hb
              have h2 : (applyOp s (CtrlOp.submit v te none t n)).count = s.count + 1 := by
                show ((submit_call s v te none t n).1).count = s.count + 1
                simp [count_submit]
              omega
          | some t0 =>
              show (autoIds (applyOp s (CtrlOp.submit v te (some t0) t n)) rest).Sorted (· < ·)
              exact ih _
      | recvMsg m => exact ih _
      | getResult tid msgs => exact ih _
      | getNext msgs => exact ih _


end Distwq
